import Mathlib

/-!
Shallow embedding of `main.py` (one-file Amazon category price tracker) and
proofs about its extraction, classification, composition and per-pass
orchestration logic.

Numbers: the script manipulates Python floats whose values here are always
exact decimals (prices parsed from decimal text, percentages computed from
them).  They are modelled as exact rational values `Frac` (integer numerator
over positive integer denominator, no implicit normalisation) so that every
comparison and arithmetic step is kernel-computable; the IEEE-754 rounding of
intermediate results is not modelled.  Python's non-finite floats (`inf`,
`nan`), which its `float()` parser accepts, are modelled explicitly by
`PyFloat`.

Strings: worked on as `List Char` (`String.data`), since the byte-position
based `String` primitives do not reduce in the kernel.  Only the ASCII
fragment of Python's unicode behaviour (digits, whitespace, case mapping) is
modelled.
-/

/-- Exact rational value `num / den`; every constructor used below keeps
`den > 0`.  Comparisons and equality of the represented values are by
cross-multiplication, so they compute by integer arithmetic alone. -/
structure Frac where
  num : Int
  den : Int
deriving DecidableEq

/-- Value equality of two fractions (Python `==` on the represented values). -/
def Frac.veq (a b : Frac) : Bool := a.num * b.den = b.num * a.den

/-- Value order on fractions (valid when both `den`s are positive). -/
def Frac.vle (a b : Frac) : Bool := a.num * b.den ≤ b.num * a.den

def Frac.vlt (a b : Frac) : Bool := a.num * b.den < b.num * a.den

def Frac.isZero (a : Frac) : Bool := a.num = 0

def Frac.sub (a b : Frac) : Frac := ⟨a.num * b.den - b.num * a.den, a.den * b.den⟩

def Frac.mul (a b : Frac) : Frac := ⟨a.num * b.num, a.den * b.den⟩

/-- Division `a / b`, with the sign moved into the numerator so the
denominator stays positive.  Callers rule out `b.num = 0` beforehand. -/
def Frac.div (a b : Frac) : Frac :=
  let n := a.num * b.den
  let d := a.den * b.num
  if d < 0 then ⟨-n, -d⟩ else ⟨n, d⟩

/-- A Python float value: an exact finite rational, an infinity, or nan. -/
inductive PyFloat where
  | finite (v : Frac)
  | pinf
  | ninf
  | nan
deriving DecidableEq

namespace PyFloat

/-- Python `<=` on floats: any comparison involving nan is false. -/
def le : PyFloat → PyFloat → Bool
  | .nan, _ => false
  | _, .nan => false
  | .ninf, _ => true
  | _, .pinf => true
  | .pinf, _ => false
  | _, .ninf => false
  | .finite a, .finite b => a.vle b

/-- Python `<` on floats: any comparison involving nan is false. -/
def lt : PyFloat → PyFloat → Bool
  | .nan, _ => false
  | _, .nan => false
  | .ninf, .ninf => false
  | .ninf, _ => true
  | _, .ninf => false
  | .pinf, _ => false
  | _, .pinf => true
  | .finite a, .finite b => a.vlt b

/-- Python `==` on floats: nan is unequal to everything, including itself. -/
def eqv : PyFloat → PyFloat → Bool
  | .nan, _ => false
  | _, .nan => false
  | .pinf, .pinf => true
  | .ninf, .ninf => true
  | .finite a, .finite b => a.veq b
  | _, _ => false

/-- Python truthiness of a float: false exactly for (positive or negative)
zero; nan and the infinities are truthy. -/
def truthy : PyFloat → Bool
  | .finite v => !v.isZero
  | _ => true

/-- Python float subtraction on the modelled values. -/
def sub : PyFloat → PyFloat → PyFloat
  | .nan, _ => .nan
  | _, .nan => .nan
  | .finite a, .finite b => .finite (a.sub b)
  | .pinf, .pinf => .nan
  | .pinf, _ => .pinf
  | .ninf, .ninf => .nan
  | .ninf, _ => .ninf
  | .finite _, .pinf => .ninf
  | .finite _, .ninf => .pinf

/-- Python float multiplication on the modelled values. -/
def mul : PyFloat → PyFloat → PyFloat
  | .nan, _ => .nan
  | _, .nan => .nan
  | .finite a, .finite b => .finite (a.mul b)
  | .pinf, .pinf => .pinf
  | .pinf, .ninf => .ninf
  | .ninf, .pinf => .ninf
  | .ninf, .ninf => .pinf
  | .pinf, .finite b => if b.vlt ⟨0, 1⟩ then .ninf else if Frac.vlt ⟨0, 1⟩ b then .pinf else .nan
  | .ninf, .finite b => if b.vlt ⟨0, 1⟩ then .pinf else if Frac.vlt ⟨0, 1⟩ b then .ninf else .nan
  | .finite a, .pinf => if a.vlt ⟨0, 1⟩ then .ninf else if Frac.vlt ⟨0, 1⟩ a then .pinf else .nan
  | .finite a, .ninf => if a.vlt ⟨0, 1⟩ then .pinf else if Frac.vlt ⟨0, 1⟩ a then .ninf else .nan

/-- Python float division on the modelled values.  Python raises
`ZeroDivisionError` on a zero divisor; the one call site (`discount`
computation) guards with `mrp > 0`, so that branch is unreachable there and is
mapped to nan. -/
def div : PyFloat → PyFloat → PyFloat
  | .nan, _ => .nan
  | _, .nan => .nan
  | .pinf, .pinf => .nan
  | .pinf, .ninf => .nan
  | .ninf, .pinf => .nan
  | .ninf, .ninf => .nan
  | .finite _, .pinf => .finite ⟨0, 1⟩
  | .finite _, .ninf => .finite ⟨0, 1⟩
  | .finite a, .finite b => if b.isZero then .nan else .finite (a.div b)
  | .pinf, .finite b => if b.vlt ⟨0, 1⟩ then .ninf else if Frac.vlt ⟨0, 1⟩ b then .pinf else .nan
  | .ninf, .finite b => if b.vlt ⟨0, 1⟩ then .pinf else if Frac.vlt ⟨0, 1⟩ b then .ninf else .nan

/-- Whether the value is a finite number. -/
def isFin : PyFloat → Bool
  | .finite _ => true
  | _ => false

end PyFloat

/-- Shorthand for a float holding an integer value. -/
def pfInt (n : Int) : PyFloat := .finite ⟨n, 1⟩

/- ===================== string utilities (List Char) ===================== -/

/-- ASCII whitespace, as stripped by Python's `str.strip()` / `float()`. -/
def isPySpace (c : Char) : Bool :=
  c = ' ' || c = '\t' || c = '\n' || c = '\r' || c = '\x0b' || c = '\x0c'

/-- Python `str.strip()`: drop leading and trailing whitespace. -/
def pyStrip (l : List Char) : List Char :=
  ((l.dropWhile isPySpace).reverse.dropWhile isPySpace).reverse

/-- Split a character list at every separator matching `p` (Python
`str.split(sep)`): always returns at least one (possibly empty) segment. -/
def splitBy (p : Char → Bool) : List Char → List (List Char)
  | [] => [[]]
  | c :: cs =>
    if p c then [] :: splitBy p cs
    else
      match splitBy p cs with
      | [] => [[c]]
      | h :: t => (c :: h) :: t

/-- Last element of a list of segments (empty list for no segments). -/
def lastSeg : List (List Char) → List Char
  | [] => []
  | [x] => x
  | _ :: xs => lastSeg xs

/- ===================== Python float() parser ===================== -/

/-- Valid tail of a digit group: digits, each underscore directly between two
digits (Python numeric-literal underscore rule). -/
def digitTail : List Char → Bool
  | [] => true
  | '_' :: c :: cs => c.isDigit && digitTail cs
  | '_' :: [] => false
  | c :: cs => c.isDigit && digitTail cs

/-- Valid (nonempty) digit group, underscores allowed between digits. -/
def digitGroup : List Char → Bool
  | [] => false
  | c :: cs => c.isDigit && digitTail cs

/-- Numeric value of a digit group, ignoring underscores. -/
def digitsToNat (l : List Char) : Nat :=
  l.foldl (fun acc c => if c = '_' then acc else acc * 10 + (c.toNat - '0'.toNat)) 0

/-- Number of actual digits in a digit group (underscores dropped). -/
def digitCount (l : List Char) : Nat := (l.filter (fun c => c ≠ '_')).length

/-- Mantissa of a float literal: `digits`, `digits.`, `.digits` or
`digits.digits`; at least one digit must be present. -/
def parseMantissa (l : List Char) : Option Frac :=
  match splitBy (fun c => c = '.') l with
  | [i] => if digitGroup i then some ⟨digitsToNat i, 1⟩ else none
  | [i, f] =>
    if (i.isEmpty || digitGroup i) && (f.isEmpty || digitGroup f)
        && !(i.isEmpty && f.isEmpty) then
      let k := digitCount f
      some ⟨(digitsToNat i) * (10 : Int) ^ k + digitsToNat f, (10 : Int) ^ k⟩
    else none
  | _ => none

/-- Exponent of a float literal: optional sign then a digit group. -/
def parseExpPart (l : List Char) : Option Int :=
  match l with
  | '+' :: r => if digitGroup r then some (digitsToNat r) else none
  | '-' :: r => if digitGroup r then some (-(digitsToNat r : Int)) else none
  | r => if digitGroup r then some (digitsToNat r) else none

/-- Scale a mantissa by a decimal exponent. -/
def applyExp (m : Frac) (e : Int) : Frac :=
  if 0 ≤ e then ⟨m.num * (10 : Int) ^ e.toNat, m.den⟩
  else ⟨m.num, m.den * (10 : Int) ^ (-e).toNat⟩

/-- Finite part of Python's float grammar (after sign removal): mantissa with
optional `e`/`E` exponent. -/
def parseFinite (l : List Char) : Option Frac :=
  match splitBy (fun c => c = 'e' || c = 'E') l with
  | [m] => parseMantissa m
  | [m, ex] =>
    match parseMantissa m, parseExpPart ex with
    | some mv, some e => some (applyExp mv e)
    | _, _ => none
  | _ => none

/-- Strip one leading sign, returning the sign and the rest. -/
def splitSign : List Char → Int × List Char
  | [] => (1, [])
  | c :: r => if c = '+' then (1, r) else if c = '-' then (-1, r) else (1, c :: r)

/-- Python `float(s)` on a character list: strips surrounding whitespace,
handles an optional sign, the special literals `inf`/`infinity`/`nan` in any
case, and otherwise the (ASCII) decimal grammar with optional exponent and
digit-group underscores.  Returns `none` where Python raises `ValueError`. -/
def pyFloatOfChars (l0 : List Char) : Option PyFloat :=
  if (splitSign (pyStrip l0)).2.map Char.toLower = "inf".data
      || (splitSign (pyStrip l0)).2.map Char.toLower = "infinity".data then
    some (if (splitSign (pyStrip l0)).1 < 0 then .ninf else .pinf)
  else if (splitSign (pyStrip l0)).2.map Char.toLower = "nan".data then some .nan
  else
    match parseFinite (splitSign (pyStrip l0)).2 with
    | some v => some (.finite ⟨(splitSign (pyStrip l0)).1 * v.num, v.den⟩)
    | none => none

/-- Python `float(s)` on a string. -/
def pyFloatOfString (s : String) : Option PyFloat := pyFloatOfChars s.data

/- ===================== normalize_price (main.py 68-81) ===================== -/

/-- Lines 72-73: `text.replace("₹", "").replace(",", "").strip()`. -/
def cleanChars (text : String) : List Char :=
  pyStrip ((text.data.filter (fun c => c ≠ '₹')).filter (fun c => c ≠ ','))

/-- Lines 77-78: `parts = t.split("."); t = "".join(parts[:-1]) + "." + parts[-1]`. -/
def joinAtLastDot (parts : List (List Char)) : List Char :=
  (parts.dropLast).flatten ++ '.' :: lastSeg parts

/-- Lines 75-78: collapse all decimal points but the last when more than one
remains. -/
def dotFix (t : List Char) : List Char :=
  if 1 < t.count '.' then joinAtLastDot (splitBy (fun c => c = '.') t) else t

/-- `normalize_price` (main.py 68-81): empty text is falsy and yields `None`;
otherwise strip the currency sign, commas and surrounding whitespace, repair a
multi-dot string, and parse with `float`, catching any failure as `None`. -/
def normalize_price (text : String) : Option PyFloat :=
  if text = "" then none
  else pyFloatOfChars (dotFix (cleanChars text))

/- ===================== page model and extraction (main.py 84-171) ===================== -/

/-- The `h2` heading of a result card: its stripped text and, when an `<a>`
child exists, that anchor's optional `href` attribute.  `anchor = none` models
a heading with no link (`not h2.a`); `anchor = some none` models an `<a>` with
no `href` attribute (`h2.a.get("href")` returning `None`). -/
structure Heading where
  text : String
  anchor : Option (Option String)
deriving DecidableEq

/-- One `s-search-result` card, reduced to the five pieces of markup the
script reads.  The markup-parsing library is a black box; each field holds
what the corresponding lookup returns: `offscreen` the text of the first
`span.a-offscreen`, `priceWhole` / `priceFraction` the stripped text of the
split-price spans, and `strike` a `span.a-text-price` container together with
the text of its inner `a-offscreen` span, when each is present. -/
structure Card where
  h2 : Option Heading
  offscreen : Option String
  priceWhole : Option String
  priceFraction : Option String
  strike : Option (Option String)
deriving DecidableEq

/-- Characters of a string joined back into a string. -/
def strOfChars (l : List Char) : String := String.mk l

/-- Python `str.startswith` (byte-free model on character lists). -/
def charsPrefix : List Char → List Char → Bool
  | [], _ => true
  | _ :: _, [] => false
  | a :: as, b :: bs => a = b && charsPrefix as bs

def strStartsWith (s pre : String) : Bool := charsPrefix pre.data s.data

/-- `parse_price_from_listing` (main.py 84-105): prefer the `a-offscreen`
text run through `normalize_price`; otherwise assemble `a-price-whole`
(commas removed) and `a-price-fraction` and parse with `float`, `None` on
failure. -/
def parse_price_from_listing (card : Card) : Option PyFloat :=
  let viaOffscreen : Option PyFloat :=
    match card.offscreen with
    | some t => if t = "" then none else normalize_price t
    | none => none
  match viaOffscreen with
  | some p => some p
  | none =>
    match card.priceWhole with
    | some w =>
      if w = "" then none
      else
        let s := (w.data.filter (fun c => c ≠ ','))
        let s2 :=
          match card.priceFraction with
          | some f => if f = "" then s else s ++ '.' :: f.data
          | none => s
        pyFloatOfChars s2
    | none => none

/-- `parse_mrp_from_listing` (main.py 108-116): inside an `a-text-price`
container, normalize the inner `a-offscreen` text; absent at any step is
`None`. -/
def parse_mrp_from_listing (card : Card) : Option PyFloat :=
  match card.strike with
  | some inner =>
    match inner with
    | some t => if t = "" then none else normalize_price t
    | none => none
  | none => none

def BASE_DOMAIN : String := "https://www.amazon.in"

/-- Mega-deal band constants (main.py 31-32). -/
def MEGA_MIN : Frac := ⟨80, 1⟩
def MEGA_MAX : Frac := ⟨95, 1⟩

/-- The environment-configurable price band (main.py 27-28), modelled as an
explicit value; the configured floats are assumed finite. -/
structure Config where
  minPrice : Frac
  maxPrice : Frac
deriving DecidableEq

/-- A candidate listing as assembled on main.py 135-152, before the
discount/high-alert classification. -/
structure Candidate where
  title : String
  price : PyFloat
  mrp : Option PyFloat
  link : String
deriving DecidableEq

/-- A classified entry dict as pushed on main.py 165: the candidate fields
plus `high_alert` (always present, line 153) and `discount` (present only
when set on line 161). -/
structure Entry where
  title : String
  price : PyFloat
  mrp : Option PyFloat
  link : String
  high_alert : Bool
  discount : Option PyFloat
deriving DecidableEq

/-- Lines 135-146: require an `h2` with an anchor, resolve the link against
`BASE_DOMAIN` when relative, and require a resolvable price; `mrp` may be
absent. -/
def parseCandidate (card : Card) : Option Candidate :=
  match card.h2 with
  | none => none
  | some h2 =>
    match h2.anchor with
    | none => none
    | some attr =>
      let href := attr.getD ""
      let link := if strStartsWith href "http" then href else BASE_DOMAIN ++ href
      match parse_price_from_listing card with
      | none => none
      | some price => some ⟨h2.text, price, parse_mrp_from_listing card, link⟩

/-- The discount percentage `(mrp - price) / mrp * 100.0` (main.py 158). -/
def discount_of (mrp price : PyFloat) : PyFloat :=
  .mul (.div (.sub mrp price) mrp) (pfInt 100)

/-- Lines 148-162: start with `high_alert = False` and no `discount`; when
`mrp` is truthy and positive, compute the discount and record it together
with `high_alert = True` exactly when it falls in `[MEGA_MIN, MEGA_MAX]`. -/
def classify (c : Candidate) : Entry :=
  let base : Entry :=
    { title := c.title, price := c.price, mrp := c.mrp, link := c.link
      high_alert := false, discount := none }
  match c.mrp with
  | none => base
  | some m =>
    if m.truthy && PyFloat.lt (pfInt 0) m then
      let d := discount_of m c.price
      if PyFloat.le (.finite MEGA_MIN) d && PyFloat.le d (.finite MEGA_MAX) then
        { base with high_alert := true, discount := some d }
      else base
    else base

/-- The push condition of main.py 164:
`(MIN_PRICE <= price <= MAX_PRICE) or entry["high_alert"]`. -/
def qualifies (cfg : Config) (e : Entry) : Bool :=
  (PyFloat.le (.finite cfg.minPrice) e.price && PyFloat.le e.price (.finite cfg.maxPrice))
    || e.high_alert

/-- The straight-line card body (lines 135-162): parse, then classify.  A card
that fails a structural or price check contributes nothing; no other
exception can arise in the body, so the `except: continue` on line 167 is
dead in this model. -/
def card_entry (card : Card) : Option Entry := (parseCandidate card).map classify

/-- The `for it in cards` loop of main.py 131-165: stop as soon as the
accumulated `products` list has reached `max_items`, and append an entry only
when it qualifies. -/
def fetchLoop (cfg : Config) (maxItems : Nat) : List Card → List Entry → List Entry
  | [], acc => acc
  | card :: rest, acc =>
    if maxItems ≤ acc.length then acc
    else
      match card_entry card with
      | none => fetchLoop cfg maxItems rest acc
      | some e =>
        if qualifies cfg e then fetchLoop cfg maxItems rest (acc ++ [e])
        else fetchLoop cfg maxItems rest acc

/-- `fetch_category_products` (main.py 119-171).  The HTTP fetch and markup
parse are a black box, modelled by their outcome: `none` when
`requests.get` / `raise_for_status` raises (lines 122-127, returning the
empty `products`), `some cards` for a parsed page's result cards. -/
def fetch_category_products (cfg : Config) (fetched : Option (List Card))
    (maxItems : Nat) : List Entry :=
  match fetched with
  | none => []
  | some cards => fetchLoop cfg maxItems cards []

/- ===================== messaging (main.py 178-217) ===================== -/

/-- `affiliate` (main.py 178-181): `&` separator when the URL already has a
`?`, else `?`. -/
def affiliate (tag url : String) : String :=
  let sep := if url.data.contains '?' then "&" else "?"
  url ++ sep ++ "tag=" ++ tag

/-- Python `int()` truncation toward zero of a finite float.  On `None` or a
non-finite float Python raises (`TypeError` / `OverflowError`); those calls
are unreachable from the pipeline (the value is then junk `0`). -/
def pyIntOf : Option PyFloat → Int
  | some (.finite f) => Int.tdiv f.num f.den
  | _ => 0

/-- Round half to even on a fraction with positive denominator (Python's
`round` on the modelled exact values). -/
def roundHalfEvenF (f : Frac) : Int :=
  let fl := Int.fdiv f.num f.den
  let twice := 2 * (f.num - fl * f.den)
  if twice < f.den then fl
  else if f.den < twice then fl + 1
  else if fl % 2 = 0 then fl else fl + 1

/-- `int(round(price))` for a finite price; junk `0` on the non-finite
values, where Python's `round` raises. -/
def pyRoundInt : PyFloat → Int
  | .finite f => roundHalfEvenF f
  | _ => 0

/-- Python `f"{x:.1f}"` on the modelled exact value: round half to even at
one decimal place. -/
def fmt1 (f : Frac) : String :=
  let n := roundHalfEvenF ⟨f.num * 10, f.den⟩
  (if n < 0 then "-" else "") ++ toString (n.natAbs / 10) ++ "." ++ toString (n.natAbs % 10)

/-- Formatting of `product.get("discount")` in the mega template; a missing
discount would make Python's format raise `TypeError` (unreachable from the
pipeline, junk empty string here). -/
def fmtDiscount : Option PyFloat → String
  | some (.finite f) => fmt1 f
  | _ => ""

/-- Python truthiness of `product.get("mrp")`: `None` and `0.0` are falsy. -/
def truthyOpt : Option PyFloat → Bool
  | some v => v.truthy
  | none => false

/-- Python `str.upper()` (ASCII model). -/
def strUpper (s : String) : String := strOfChars (s.data.map Char.toUpper)

/-- Python `"\n".join(lines)`. -/
def joinLines : List String → String
  | [] => ""
  | [a] => a
  | a :: rest => a ++ "\n" ++ joinLines rest

/-- `build_message` (main.py 184-217).  The timestamp `datetime.now()` is the
one impure input and is passed in as `ts`; the affiliate tag global is passed
as `tag`. -/
def build_message (tag ts category_name : String) (product : Entry) : String :=
  if product.high_alert && truthyOpt product.mrp then
    joinLines
      [ "🚨🚨 MEGA DEAL ALERT 🚨🚨"
      , "Category: " ++ category_name
      , "Title: " ++ product.title
      , "MRP: ₹" ++ toString (pyIntOf product.mrp)
      , "Offer Price: ₹" ++ toString (pyRoundInt product.price)
      , "Discount: " ++ fmtDiscount product.discount ++ "% OFF"
      , "Time: " ++ ts
      , "CTA: Hurry! Limited stock!"
      , "Link: " ++ affiliate tag product.link ]
  else
    joinLines
      [ "📢 " ++ strUpper category_name ++ " Deal (" ++ ts ++ ")"
      , "Title: " ++ product.title
      , "Price: ₹" ++ toString (pyRoundInt product.price)
          ++ (if truthyOpt product.mrp then " (MRP: ₹" ++ toString (pyIntOf product.mrp) ++ ")"
              else "")
      , "CTA: Grab it before it’s gone!"
      , "Link: " ++ affiliate tag product.link ]

/- ===================== per-pass orchestration (main.py 240-255) ===================== -/

/-- The messages one category contributes to a pass: one per extracted
product (main.py 244-246); dispatch itself is a black box. -/
def category_messages (cfg : Config) (tag ts name : String)
    (fetched : Option (List Card)) (maxItems : Nat) : List String :=
  (fetch_category_products cfg fetched maxItems).map (build_message tag ts name)

/-- `run_check` (main.py 240-255) as the ordered list of messages built in
one pass: categories in configured order, `max_items=12`, each category's
fetch outcome given by the oracle `fetchOf` on its URL. -/
def run_check (cfg : Config) (tag ts : String) (fetchOf : String → Option (List Card))
    (cats : List (String × String)) : List String :=
  cats.flatMap (fun nu => category_messages cfg tag ts nu.1 (fetchOf nu.2) 12)

/-- Substring search on character lists. -/
def charsInfix (pat : List Char) : List Char → Bool
  | [] => charsPrefix pat []
  | l@(_ :: rest) => charsPrefix pat l || charsInfix pat rest

/-- `pat in s`, Python substring containment. -/
def strHasSub (s pat : String) : Bool := charsInfix pat.data s.data

/- ===================== concrete fixtures ===================== -/

/-- The default price band `[150, 1000]` (main.py 27-28). -/
def cfgStd : Config := ⟨⟨150, 1⟩, ⟨1000, 1⟩⟩

/-- A structurally valid card whose price `₹2,000.00` resolves but lies above
the price band, with no strike-through MRP. -/
def cardPricey : Card := ⟨some ⟨"Pricey", some (some "/a")⟩, some "₹2,000.00", none, none, none⟩

/-- A structurally valid card with in-band price `₹500.00`. -/
def cardCheap : Card := ⟨some ⟨"Cheap", some (some "/b")⟩, some "₹500.00", none, none, none⟩

/-- The entry the pipeline builds from `cardCheap`. -/
def entryCheap : Entry :=
  ⟨"Cheap", .finite ⟨50000, 100⟩, none, "https://www.amazon.in/b", false, none⟩

/-- A mega-deal card: offer price `₹120.00` (below the band) against a
strike-through MRP `₹1,000.00`, an 88% discount. -/
def cardMega : Card :=
  ⟨some ⟨"Widget", some (some "https://x.test/p")⟩, some "₹120.00", none, none,
    some (some "₹1,000.00")⟩

/-- The Widget candidate of the spec's end-to-end scenario. -/
def widgetCand : Candidate :=
  ⟨"Widget", .finite ⟨120, 1⟩, some (.finite ⟨1000, 1⟩), "https://x.test/p"⟩

/- ===================== classification lemmas ===================== -/

theorem classify_price (c : Candidate) : (classify c).price = c.price := by
  unfold classify
  cases c.mrp with
  | none => rfl
  | some m =>
    dsimp only
    split
    · split <;> rfl
    · rfl

theorem classify_mrp (c : Candidate) : (classify c).mrp = c.mrp := by
  unfold classify
  cases c.mrp with
  | none => rfl
  | some m =>
    dsimp only
    split
    · split <;> rfl
    · rfl

/-- Closed form of `classify` when the candidate has an `mrp` field. -/
theorem classify_eq_of_mrp (c : Candidate) (m : PyFloat) (hm : c.mrp = some m) :
    classify c =
      if (m.truthy && PyFloat.lt (pfInt 0) m) = true then
        if (PyFloat.le (.finite MEGA_MIN) (discount_of m c.price)
            && PyFloat.le (discount_of m c.price) (.finite MEGA_MAX)) = true then
          { title := c.title, price := c.price, mrp := some m, link := c.link,
            high_alert := true, discount := some (discount_of m c.price) }
        else
          { title := c.title, price := c.price, mrp := some m, link := c.link,
            high_alert := false, discount := none }
      else
        { title := c.title, price := c.price, mrp := some m, link := c.link,
          high_alert := false, discount := none } := by
  unfold classify
  rw [hm]

/-- Everything the classifier guarantees about a high-alert entry. -/
theorem classify_high_alert_spec (c : Candidate) (h : (classify c).high_alert = true) :
    ∃ m, c.mrp = some m ∧ (m.truthy && PyFloat.lt (pfInt 0) m) = true ∧
      (classify c).discount = some (discount_of m c.price) ∧
      (PyFloat.le (.finite MEGA_MIN) (discount_of m c.price)
        && PyFloat.le (discount_of m c.price) (.finite MEGA_MAX)) = true := by
  rcases hm : c.mrp with _ | m
  · exfalso
    unfold classify at h
    rw [hm] at h
    exact absurd h (by simp)
  · rw [classify_eq_of_mrp c m hm] at h ⊢
    split_ifs at h ⊢ with h1 h2
    exact ⟨m, rfl, h1, rfl, h2⟩

/-- The discount field is set exactly together with `high_alert`. -/
theorem classify_discount_isSome (c : Candidate) :
    (classify c).discount.isSome = (classify c).high_alert := by
  unfold classify
  cases c.mrp with
  | none => rfl
  | some m =>
    dsimp only
    split
    · split <;> rfl
    · rfl

/-- A float that is strictly positive is truthy. -/
theorem truthy_of_pos {m : PyFloat} (h : PyFloat.lt (pfInt 0) m = true) :
    m.truthy = true := by
  cases m with
  | finite v =>
    simp only [pfInt, PyFloat.lt, Frac.vlt, PyFloat.truthy, Frac.isZero,
      decide_eq_true_eq, Bool.not_eq_true'] at h ⊢
    simp only [decide_eq_false_iff_not]
    omega
  | pinf => rfl
  | ninf => simp [pfInt, PyFloat.lt] at h
  | nan => simp [pfInt, PyFloat.lt] at h

/- ===================== the loop as filter-then-truncate ===================== -/

/-- The extraction loop accumulates exactly the first
`maxItems - acc.length` qualifying entries of the remaining cards. -/
theorem fetchLoop_eq (cfg : Config) (maxItems : Nat) :
    ∀ (cards : List Card) (acc : List Entry),
      fetchLoop cfg maxItems cards acc
        = acc ++ ((cards.filterMap card_entry).filter (qualifies cfg)).take
            (maxItems - acc.length)
  | [], acc => by simp [fetchLoop]
  | card :: rest, acc => by
    rw [fetchLoop]
    by_cases hlen : maxItems ≤ acc.length
    · rw [if_pos hlen, Nat.sub_eq_zero_of_le hlen]
      simp
    · rw [if_neg hlen]
      rcases hce : card_entry card with _ | e
      · simpa [List.filterMap_cons_none hce] using fetchLoop_eq cfg maxItems rest acc
      · rw [List.filterMap_cons_some hce]
        dsimp only
        by_cases hq : qualifies cfg e = true
        · rw [if_pos hq, fetchLoop_eq cfg maxItems rest (acc ++ [e])]
          rw [List.filter_cons_of_pos hq]
          have h1 : maxItems - acc.length = (maxItems - (acc ++ [e]).length) + 1 := by
            simp only [List.length_append, List.length_singleton]
            omega
          rw [h1, List.take_succ_cons]
          simp
        · rw [if_neg hq, fetchLoop_eq cfg maxItems rest acc,
            List.filter_cons_of_neg (by simpa using hq)]

/- ===================== parser membership lemmas ===================== -/

theorem mem_pyStrip {l : List Char} {c : Char} (h : c ∈ pyStrip l) : c ∈ l := by
  unfold pyStrip at h
  rw [List.mem_reverse] at h
  have h2 := (List.dropWhile_sublist isPySpace).subset h
  rw [List.mem_reverse] at h2
  exact (List.dropWhile_sublist isPySpace).subset h2

theorem mem_splitBy {p : Char → Bool} {c : Char} {l seg : List Char}
    (hseg : seg ∈ splitBy p l) (hc : c ∈ seg) : c ∈ l := by
  induction l generalizing seg with
  | nil =>
    simp only [splitBy, List.mem_singleton] at hseg
    subst hseg
    cases hc
  | cons a as ih =>
    rw [splitBy] at hseg
    by_cases hp : p a
    · rw [if_pos hp] at hseg
      rcases List.mem_cons.mp hseg with h | h
      · subst h; cases hc
      · exact List.mem_cons_of_mem _ (ih h hc)
    · rw [if_neg hp] at hseg
      rcases hsb : splitBy p as with _ | ⟨h0, t⟩
      · rw [hsb] at hseg
        simp only [List.mem_singleton] at hseg
        subst hseg
        rw [List.mem_singleton] at hc
        exact List.mem_cons.mpr (Or.inl hc)
      · rw [hsb] at hseg
        rcases List.mem_cons.mp hseg with h | h
        · subst h
          rcases List.mem_cons.mp hc with h | h
          · exact List.mem_cons.mpr (Or.inl h)
          · exact List.mem_cons.mpr (Or.inr (ih (hsb ▸ List.mem_cons_self h0 t) h))
        · exact List.mem_cons.mpr (Or.inr (ih (hsb ▸ List.mem_cons_of_mem h0 h) hc))

theorem mem_lastSeg {parts : List (List Char)} {c : Char} (h : c ∈ lastSeg parts) :
    ∃ seg ∈ parts, c ∈ seg := by
  induction parts with
  | nil => cases h
  | cons x xs ih =>
    rcases xs with _ | ⟨y, ys⟩
    · exact ⟨x, List.mem_cons_self _ _, h⟩
    · rcases ih h with ⟨seg, hs, hcm⟩
      exact ⟨seg, List.mem_cons_of_mem _ hs, hcm⟩

theorem mem_joinAtLastDot {parts : List (List Char)} {c : Char}
    (h : c ∈ joinAtLastDot parts) : c = '.' ∨ ∃ seg ∈ parts, c ∈ seg := by
  unfold joinAtLastDot at h
  rcases List.mem_append.mp h with h | h
  · rcases List.mem_flatten.mp h with ⟨seg, hs, hcm⟩
    exact Or.inr ⟨seg, List.dropLast_subset _ hs, hcm⟩
  · rcases List.mem_cons.mp h with h | h
    · exact Or.inl h
    · exact Or.inr (mem_lastSeg h)

theorem mem_cleanChars {text : String} {c : Char} (h : c ∈ cleanChars text) :
    c ∈ text.data := by
  unfold cleanChars at h
  have h2 := mem_pyStrip h
  exact (List.mem_filter.mp (List.mem_filter.mp h2).1).1

theorem mem_dotFix {t : List Char} {c : Char} (h : c ∈ dotFix t) : c = '.' ∨ c ∈ t := by
  unfold dotFix at h
  split at h
  · rcases mem_joinAtLastDot h with h | ⟨seg, hs, hcm⟩
    · exact Or.inl h
    · exact Or.inr (mem_splitBy hs hcm)
  · exact Or.inr h

theorem digitGroup_has_digit {l : List Char} (h : digitGroup l = true) :
    ∃ c ∈ l, c.isDigit = true := by
  cases l with
  | nil => simp [digitGroup] at h
  | cons c cs =>
    rw [digitGroup, Bool.and_eq_true] at h
    exact ⟨c, List.mem_cons_self _ _, h.1⟩

theorem parseMantissa_has_digit {l : List Char} {v : Frac}
    (h : parseMantissa l = some v) : ∃ c ∈ l, c.isDigit = true := by
  unfold parseMantissa at h
  rcases hsb : splitBy (fun c => c = '.') l with _ | ⟨i, t⟩
  · rw [hsb] at h; cases h
  · rcases t with _ | ⟨f, t2⟩
    · rw [hsb] at h
      dsimp only at h
      split_ifs at h with hg
      rcases digitGroup_has_digit hg with ⟨c, hcm, hd⟩
      exact ⟨c, mem_splitBy (hsb ▸ List.mem_cons_self i _) hcm, hd⟩
    · rcases t2 with _ | _
      · rw [hsb] at h
        dsimp only at h
        split_ifs at h with hg
        rw [Bool.and_eq_true, Bool.and_eq_true, Bool.not_eq_true'] at hg
        rcases hg with ⟨⟨hi, hf⟩, hne⟩
        by_cases hie : i.isEmpty = true
        · have hfe : f.isEmpty = false := by
            cases hx : f.isEmpty
            · rfl
            · rw [hie, hx] at hne; cases hne
          rw [hfe, Bool.false_or] at hf
          rcases digitGroup_has_digit hf with ⟨c, hcm, hd⟩
          have hfmem : f ∈ splitBy (fun c => decide (c = '.')) l := by
            rw [hsb]; exact List.mem_cons_of_mem _ (List.mem_cons_self f _)
          exact ⟨c, mem_splitBy hfmem hcm, hd⟩
        · have hie' : i.isEmpty = false := by
            cases hx : i.isEmpty
            · rfl
            · exact absurd hx hie
          rw [hie', Bool.false_or] at hi
          rcases digitGroup_has_digit hi with ⟨c, hcm, hd⟩
          exact ⟨c, mem_splitBy (hsb ▸ List.mem_cons_self i _) hcm, hd⟩
      · rw [hsb] at h; cases h

theorem parseFinite_has_digit {l : List Char} {v : Frac}
    (h : parseFinite l = some v) : ∃ c ∈ l, c.isDigit = true := by
  unfold parseFinite at h
  rcases hsb : splitBy (fun c => c = 'e' || c = 'E') l with _ | ⟨m, t⟩
  · rw [hsb] at h; cases h
  · rcases t with _ | ⟨ex, t2⟩
    · rw [hsb] at h
      dsimp only at h
      rcases parseMantissa_has_digit h with ⟨c, hcm, hd⟩
      exact ⟨c, mem_splitBy (hsb ▸ List.mem_cons_self m _) hcm, hd⟩
    · rcases t2 with _ | _
      · rw [hsb] at h
        dsimp only at h
        rcases hm : parseMantissa m with _ | mv <;> rw [hm] at h
        · cases h
        · rcases parseMantissa_has_digit hm with ⟨c, hcm, hd⟩
          exact ⟨c, mem_splitBy (hsb ▸ List.mem_cons_self m _) hcm, hd⟩
      · rw [hsb] at h; cases h

theorem mem_splitSign_snd {l : List Char} {c : Char} (h : c ∈ (splitSign l).2) :
    c ∈ l := by
  cases l with
  | nil => cases h
  | cons a as =>
    rw [splitSign] at h
    split_ifs at h
    · exact List.mem_cons_of_mem _ h
    · exact List.mem_cons_of_mem _ h
    · exact h

theorem pyFloatOfChars_finite_has_digit {l0 : List Char} {v : Frac}
    (h : pyFloatOfChars l0 = some (.finite v)) : ∃ c ∈ l0, c.isDigit = true := by
  unfold pyFloatOfChars at h
  split_ifs at h
  all_goals try exact absurd h (by simp)
  rcases hpf : parseFinite (splitSign (pyStrip l0)).2 with _ | fv <;> rw [hpf] at h
  · cases h
  · rcases parseFinite_has_digit hpf with ⟨c, hcm, hd⟩
    exact ⟨c, mem_pyStrip (mem_splitSign_snd hcm), hd⟩

/- ===================== claim theorems ===================== -/

/-- C1: for every extracted listing and configuration, the push condition
(`qualifies`) holds iff the listing's price lies within
`[minPrice, maxPrice]` inclusive, or the listing was marked a mega deal —
an inclusive OR, with the price read off the candidate unchanged. -/
theorem qualifies_iff_price_band_or_mega (cfg : Config) (c : Candidate) :
    qualifies cfg (classify c) = true ↔
      ((PyFloat.le (.finite cfg.minPrice) c.price
          && PyFloat.le c.price (.finite cfg.maxPrice)) = true
        ∨ (classify c).high_alert = true) := by
  unfold qualifies
  rw [classify_price]
  simp [Bool.or_eq_true]

/-- C2 counterexample: a listing with `mrp = 1000 > 0` and price 900 (a 10%
discount, outside the mega band) gets no `discount` field, so
`discountPercent` is not present whenever the MRP is present and positive. -/
theorem discount_absent_despite_positive_mrp :
    (classify ⟨"X", .finite ⟨900, 1⟩, some (pfInt 1000), "L"⟩).mrp = some (pfInt 1000)
    ∧ PyFloat.lt (pfInt 0) (pfInt 1000) = true
    ∧ (classify ⟨"X", .finite ⟨900, 1⟩, some (pfInt 1000), "L"⟩).discount = none := by
  decide

/-- C2 (amended): `discountPercent` is stored exactly when the listing is
marked a mega deal (which requires a present, truthy, positive `mrp` and a
discount inside the mega band), and whenever stored it equals
`(mrp - price) / mrp * 100`. -/
theorem discount_present_iff_mega (c : Candidate) :
    ((classify c).discount.isSome = (classify c).high_alert)
    ∧ (∀ d, (classify c).discount = some d →
        ∃ m, c.mrp = some m ∧ d = discount_of m c.price) := by
  refine ⟨classify_discount_isSome c, fun d hd => ?_⟩
  have hs : (classify c).discount.isSome = true := by rw [hd]; rfl
  rw [classify_discount_isSome c] at hs
  rcases classify_high_alert_spec c hs with ⟨m, hm, _, hdisc, _⟩
  rw [hd] at hdisc
  exact ⟨m, hm, Option.some.inj hdisc⟩

theorem discount_present_iff_mega_witness :
    ∃ m, widgetCand.mrp = some m
      ∧ (PyFloat.finite ⟨88000, 1000⟩) = discount_of m widgetCand.price :=
  (discount_present_iff_mega widgetCand).2 (.finite ⟨88000, 1000⟩) (by decide)

/-- C3: when the MRP is present and positive, `high_alert` is set iff the
computed discount `(mrp - price) / mrp * 100` lies in `[MEGA_MIN, MEGA_MAX]`
inclusive; concretely with the fixed band `[80, 95]`: `mrp=1000, price=200`
computes 80.0 and is a mega deal, `price=50` computes 95.0 and is a mega
deal, `price=40` computes 96.0 and is not. -/
theorem mega_iff_discount_in_band :
    (∀ (c : Candidate) (m : PyFloat), c.mrp = some m →
      PyFloat.lt (pfInt 0) m = true →
      ((classify c).high_alert = true ↔
        (PyFloat.le (.finite MEGA_MIN) (discount_of m c.price)
          && PyFloat.le (discount_of m c.price) (.finite MEGA_MAX)) = true))
    ∧ (PyFloat.eqv (discount_of (pfInt 1000) (pfInt 200)) (pfInt 80) = true
        ∧ (classify ⟨"A", pfInt 200, some (pfInt 1000), "L"⟩).high_alert = true)
    ∧ (PyFloat.eqv (discount_of (pfInt 1000) (pfInt 50)) (pfInt 95) = true
        ∧ (classify ⟨"A", pfInt 50, some (pfInt 1000), "L"⟩).high_alert = true)
    ∧ (PyFloat.eqv (discount_of (pfInt 1000) (pfInt 40)) (pfInt 96) = true
        ∧ (classify ⟨"A", pfInt 40, some (pfInt 1000), "L"⟩).high_alert = false) := by
  refine ⟨fun c m hm hlt => ?_, by decide, by decide, by decide⟩
  rw [classify_eq_of_mrp c m hm]
  have hcond : (m.truthy && PyFloat.lt (pfInt 0) m) = true := by
    rw [truthy_of_pos hlt, hlt]; rfl
  rw [if_pos hcond]
  by_cases hband : (PyFloat.le (.finite MEGA_MIN) (discount_of m c.price)
      && PyFloat.le (discount_of m c.price) (.finite MEGA_MAX)) = true
  · rw [if_pos hband]; simp [hband]
  · rw [if_neg hband]; simp [hband]

theorem mega_iff_discount_in_band_witness :
    (classify ⟨"A", pfInt 200, some (pfInt 1000), "L"⟩).high_alert = true :=
  (mega_iff_discount_in_band.1 ⟨"A", pfInt 200, some (pfInt 1000), "L"⟩ (pfInt 1000) rfl
    (by decide)).mpr (by decide)

/- ===================== composer helper lemmas ===================== -/

theorem charsPrefix_append_self (l r : List Char) : charsPrefix l (l ++ r) = true := by
  induction l with
  | nil => rfl
  | cons a as ih => simp [charsPrefix, ih]

theorem charsPrefix_cons_ne (a b : Char) (as bs : List Char) (h : ¬a = b) :
    charsPrefix (a :: as) (b :: bs) = false := by
  simp [charsPrefix, h]

theorem strStartsWith_joinLines_cons (a b : String) (rest : List String) :
    strStartsWith (joinLines (a :: b :: rest)) a = true := by
  unfold strStartsWith
  rw [show joinLines (a :: b :: rest) = a ++ "\n" ++ joinLines (b :: rest) from rfl]
  rw [String.data_append, String.data_append, List.append_assoc]
  exact charsPrefix_append_self _ _

theorem joinLines_cons_data (a : String) (rest : List String) :
    ∃ tl, (joinLines (a :: rest)).data = a.data ++ tl := by
  cases rest with
  | nil => exact ⟨[], by simp [joinLines]⟩
  | cons b bs =>
    refine ⟨("\n" ++ joinLines (b :: bs)).data, ?_⟩
    rw [show joinLines (a :: b :: bs) = a ++ "\n" ++ joinLines (b :: bs) from rfl]
    simp [String.data_append]

theorem not_mega_header_of_standard_first (s : String) (rest : List String) :
    strStartsWith (joinLines (("📢 " ++ s) :: rest)) "🚨🚨 MEGA DEAL ALERT 🚨🚨" = false := by
  obtain ⟨tl, htl⟩ := joinLines_cons_data ("📢 " ++ s) rest
  unfold strStartsWith
  rw [htl, String.data_append]
  rw [show ("📢 " : String).data = ['📢', ' '] from by decide]
  rw [show ("🚨🚨 MEGA DEAL ALERT 🚨🚨" : String).data
      = '🚨' :: ("🚨 MEGA DEAL ALERT 🚨🚨" : String).data from by decide]
  simp only [List.cons_append]
  exact charsPrefix_cons_ne _ _ _ _ (by decide)

/- ===================== claims C4-C10 ===================== -/

/-- C6: over classified listings, the composer opens with the mega-deal
header exactly when `isMegaDeal` holds and the MRP is present (otherwise the
standard template is used), and in the spec's end-to-end scenario
(price 120, mrp 1000) the mega message renders the integer MRP, the rounded
offer price and the one-decimal discount. -/
theorem mega_template_selection :
    (∀ (tag ts name : String) (c : Candidate),
      strStartsWith (build_message tag ts name (classify c)) "🚨🚨 MEGA DEAL ALERT 🚨🚨"
        = ((classify c).high_alert && (classify c).mrp.isSome))
    ∧ strHasSub (build_message "tagA" "01-Jan-2026 10:00" "mobiles" (classify widgetCand))
        "MRP: ₹1000" = true
    ∧ strHasSub (build_message "tagA" "01-Jan-2026 10:00" "mobiles" (classify widgetCand))
        "Offer Price: ₹120" = true
    ∧ strHasSub (build_message "tagA" "01-Jan-2026 10:00" "mobiles" (classify widgetCand))
        "Discount: 88.0% OFF" = true := by
  refine ⟨fun tag ts name c => ?_, by decide, by decide, by decide⟩
  by_cases hcond : ((classify c).high_alert && truthyOpt (classify c).mrp) = true
  · have hha : (classify c).high_alert = true := by
      have h2 := hcond
      rw [Bool.and_eq_true] at h2
      exact h2.1
    rcases classify_high_alert_spec c hha with ⟨m, hm, _, _, _⟩
    have hsome : (classify c).mrp.isSome = true := by rw [classify_mrp, hm]; rfl
    rw [hha, hsome]
    unfold build_message
    rw [if_pos hcond]
    exact strStartsWith_joinLines_cons _ _ _
  · have hrhs : ((classify c).high_alert && (classify c).mrp.isSome) = false := by
      by_cases hha : (classify c).high_alert = true
      · exfalso
        rcases classify_high_alert_spec c hha with ⟨m, hm, hc2, _, _⟩
        rw [Bool.and_eq_true] at hc2
        have htr : truthyOpt (classify c).mrp = true := by
          rw [classify_mrp, hm]; exact hc2.1
        rw [hha, htr] at hcond
        exact hcond rfl
      · have hfa : (classify c).high_alert = false := by
          cases hx : (classify c).high_alert
          · rfl
          · exact absurd hx hha
        rw [hfa]; rfl
    rw [hrhs]
    unfold build_message
    rw [if_neg hcond]
    simp only [String.append_assoc]
    exact not_mega_header_of_standard_first _ _

/-- Modelled from the claim's staging of C4: first extract up to `maxItems`
candidates in document order, counting every structurally valid card with a
resolvable price, then classify each, then keep the qualifying ones, then
compose one message per survivor. -/
def staged_messages (cfg : Config) (tag ts name : String) (cards : List Card)
    (maxItems : Nat) : List String :=
  (((((cards.filterMap parseCandidate).take maxItems).map classify).filter
    (qualifies cfg))).map (build_message tag ts name)

/-- C4 counterexample: with `maxItems = 1` and a page whose first valid card
is out of band and unmarked while the second qualifies, the claim's staging
(bounding the number of extracted candidates) yields no message, but the code
(which bounds the number of accepted qualifying entries) emits one. -/
theorem staged_candidate_bound_mismatch :
    staged_messages cfgStd "tagA" "ts" "home" [cardPricey, cardCheap] 1
      ≠ category_messages cfgStd "tagA" "ts" "home" (some [cardPricey, cardCheap]) 1 := by
  decide

/-- C4 (amended): on a successful fetch the category pipeline equals the
staged composition extract-candidates, classify each, filter to the
qualifying ones, truncate to the first `maxItems` qualifying entries (the
bound counts accepted qualifying candidates, not all valid cards), and
compose one message per survivor. -/
theorem pipeline_is_staged_with_qualifying_bound (cfg : Config) (tag ts name : String)
    (cards : List Card) (maxItems : Nat) :
    category_messages cfg tag ts name (some cards) maxItems
      = (((((cards.filterMap parseCandidate).map classify).filter
          (qualifies cfg)).take maxItems)).map (build_message tag ts name) := by
  unfold category_messages fetch_category_products
  dsimp only
  rw [fetchLoop_eq cfg maxItems cards [], List.map_filterMap]
  simp only [List.nil_append, List.length_nil, Nat.sub_zero]
  rfl

/-- C9: every entry in the extractor's output already satisfies the
qualification predicate — the filter runs inside the extraction loop — and
the downstream stage composes one message per output entry with no further
filtering. -/
theorem extraction_output_qualifies (cfg : Config) (fetched : Option (List Card))
    (maxItems : Nat) (e : Entry)
    (he : e ∈ fetch_category_products cfg fetched maxItems) :
    qualifies cfg e = true
    ∧ ∀ tag ts name, category_messages cfg tag ts name fetched maxItems
        = (fetch_category_products cfg fetched maxItems).map (build_message tag ts name) := by
  refine ⟨?_, fun tag ts name => rfl⟩
  rcases fetched with _ | cards
  · cases he
  · rw [show fetch_category_products cfg (some cards) maxItems
        = fetchLoop cfg maxItems cards [] from rfl, fetchLoop_eq] at he
    simp only [List.nil_append, List.length_nil, Nat.sub_zero] at he
    exact (List.mem_filter.mp (List.mem_of_mem_take he)).2

theorem extraction_output_qualifies_witness : qualifies cfgStd entryCheap = true :=
  (extraction_output_qualifies cfgStd (some [cardPricey, cardCheap]) 1 entryCheap
    (by decide)).1

/-- C10: a high-alert entry produced by extraction always carries a present,
strictly positive MRP and a stored discount lying inside
`[MEGA_MIN, MEGA_MAX]`, and it satisfies the mega-template selection
condition, so the mega template is rendered only with both present. -/
theorem high_alert_entries_well_formed (cfg : Config) (fetched : Option (List Card))
    (maxItems : Nat) (e : Entry)
    (he : e ∈ fetch_category_products cfg fetched maxItems)
    (hh : e.high_alert = true) :
    (∃ m, e.mrp = some m ∧ PyFloat.lt (pfInt 0) m = true)
    ∧ (∃ d, e.discount = some d
        ∧ (PyFloat.le (.finite MEGA_MIN) d && PyFloat.le d (.finite MEGA_MAX)) = true)
    ∧ (e.high_alert && truthyOpt e.mrp) = true := by
  rcases fetched with _ | cards
  · cases he
  · rw [show fetch_category_products cfg (some cards) maxItems
        = fetchLoop cfg maxItems cards [] from rfl, fetchLoop_eq] at he
    simp only [List.nil_append, List.length_nil, Nat.sub_zero] at he
    have he3 := (List.mem_filter.mp (List.mem_of_mem_take he)).1
    rcases List.mem_filterMap.mp he3 with ⟨card, _, hce⟩
    unfold card_entry at hce
    rcases hpc : parseCandidate card with _ | cand
    · rw [hpc] at hce; cases hce
    · rw [hpc] at hce
      simp only [Option.map_some'] at hce
      have heq : e = classify cand := (Option.some.inj hce).symm
      subst heq
      rcases classify_high_alert_spec cand hh with ⟨m, hm, hcond, hdisc, hband⟩
      rw [Bool.and_eq_true] at hcond
      refine ⟨⟨m, ?_, hcond.2⟩, ⟨discount_of m cand.price, hdisc, hband⟩, ?_⟩
      · rw [classify_mrp]; exact hm
      · rw [hh, classify_mrp, hm]
        simp only [Bool.true_and]
        exact hcond.1

/-- The entry the pipeline builds from `cardMega`. -/
def entryMega : Entry :=
  ⟨"Widget", .finite ⟨12000, 100⟩, some (.finite ⟨100000, 100⟩), "https://x.test/p",
    true, some (.finite ⟨88000000000, 1000000000⟩)⟩

theorem high_alert_entries_well_formed_witness :
    (∃ m, entryMega.mrp = some m ∧ PyFloat.lt (pfInt 0) m = true)
    ∧ (∃ d, entryMega.discount = some d
        ∧ (PyFloat.le (.finite MEGA_MIN) d && PyFloat.le d (.finite MEGA_MAX)) = true)
    ∧ (entryMega.high_alert && truthyOpt entryMega.mrp) = true :=
  high_alert_entries_well_formed cfgStd (some [cardMega]) 12 entryMega (by decide) (by decide)

/-- C7: a category whose fetch fails contributes zero listings (hence zero
messages), and the rest of the pass is unaffected: the pass over the
surrounding categories is exactly the pass without the failing one. -/
theorem fetch_failure_isolated (cfg : Config) (tag ts : String)
    (fetchOf : String → Option (List Card)) (pre : List (String × String))
    (name url : String) (post : List (String × String)) (h : fetchOf url = none) :
    fetch_category_products cfg (fetchOf url) 12 = []
    ∧ run_check cfg tag ts fetchOf (pre ++ (name, url) :: post)
        = run_check cfg tag ts fetchOf pre ++ run_check cfg tag ts fetchOf post := by
  constructor
  · rw [h]; rfl
  · simp [run_check, category_messages, h, fetch_category_products]

/-- A fetch oracle that fails only on the URL `"bad"`. -/
def fetchOracle : String → Option (List Card) :=
  fun u => if u = "bad" then none else some [cardCheap]

theorem fetch_failure_isolated_witness :
    fetch_category_products cfgStd (fetchOracle "bad") 12 = []
    ∧ run_check cfgStd "tagA" "ts" fetchOracle
        ([("home", "u1")] ++ ("mobiles", "bad") :: [("watches", "u2")])
        = run_check cfgStd "tagA" "ts" fetchOracle [("home", "u1")]
          ++ run_check cfgStd "tagA" "ts" fetchOracle [("watches", "u2")] :=
  fetch_failure_isolated cfgStd "tagA" "ts" fetchOracle [("home", "u1")] "mobiles" "bad"
    [("watches", "u2")] (by decide)

/-- C8: the affiliate function appends `tag=<tag>` with `&` when the URL
already contains `?` and with `?` otherwise, as on the two example URLs. -/
theorem affiliate_appends_tag :
    (∀ url tag, affiliate tag url
        = url ++ (if url.data.contains '?' then "&" else "?") ++ "tag=" ++ tag)
    ∧ affiliate "tagA" "https://x.test/p" = "https://x.test/p?tag=tagA"
    ∧ affiliate "tagA" "https://x.test/p?ref=1" = "https://x.test/p?ref=1&tag=tagA" := by
  exact ⟨fun url tag => rfl, by decide, by decide⟩

/-- C5 counterexample: `"inf"` contains no digit, yet Python's `float`
accepts it, so `normalize_price` returns positive infinity rather than
absent. -/
theorem normalize_price_inf_not_absent :
    normalize_price "inf" = some PyFloat.pinf
    ∧ "inf".data.all (fun c => !c.isDigit) = true := by
  decide

/-- C5 (amended): `normalize_price` strips the currency sign, commas and
surrounding whitespace and parses the rest as a Python float
(`normalize("₹1,234.00") == 1234.00` and `normalize("1,29,900") == 129900.0`);
when more than one decimal point remains it concatenates every segment before
the last point and keeps the final segment as the fractional part
(`"1.2.3"` parses as 12.3); and it returns absent — never raising — whenever
the cleaned text is not a Python float literal; a string with no digits is
either absent or one of the non-finite special literals
(`inf`/`infinity`/`nan`, any case, optionally signed) that `float` accepts. -/
theorem normalize_price_parsing :
    (∃ v, normalize_price "₹1,234.00" = some v ∧ PyFloat.eqv v (pfInt 1234) = true)
    ∧ (∃ v, normalize_price "1,29,900" = some v ∧ PyFloat.eqv v (pfInt 129900) = true)
    ∧ (∀ text : String, text ≠ "" → 1 < (cleanChars text).count '.' →
        normalize_price text
          = pyFloatOfChars (joinAtLastDot (splitBy (fun c => c = '.') (cleanChars text))))
    ∧ (∃ v, normalize_price "1.2.3" = some v ∧ PyFloat.eqv v (.finite ⟨123, 10⟩) = true)
    ∧ (∀ text : String, (∀ c ∈ text.data, c.isDigit = false) →
        normalize_price text = none
          ∨ ∃ v, normalize_price text = some v ∧ v.isFin = false) := by
  refine ⟨⟨.finite ⟨123400, 100⟩, by decide, by decide⟩,
    ⟨.finite ⟨129900, 1⟩, by decide, by decide⟩, fun text h1 h2 => ?_,
    ⟨.finite ⟨123, 10⟩, by decide, by decide⟩, fun text hnd => ?_⟩
  · unfold normalize_price dotFix
    rw [if_neg h1, if_pos h2]
  · rcases hres : normalize_price text with _ | v
    · exact Or.inl rfl
    · cases v with
      | finite f =>
        exfalso
        unfold normalize_price at hres
        split_ifs at hres with he
        rcases pyFloatOfChars_finite_has_digit hres with ⟨c, hcm, hd⟩
        rcases mem_dotFix hcm with hdot | hcc
        · subst hdot
          exact absurd hd (by decide)
        · rw [hnd c (mem_cleanChars hcc)] at hd
          cases hd
      | pinf => exact Or.inr ⟨PyFloat.pinf, rfl, rfl⟩
      | ninf => exact Or.inr ⟨PyFloat.ninf, rfl, rfl⟩
      | nan => exact Or.inr ⟨PyFloat.nan, rfl, rfl⟩

theorem normalize_price_parsing_witness :
    normalize_price "1.2.3"
      = pyFloatOfChars (joinAtLastDot (splitBy (fun c => c = '.') (cleanChars "1.2.3")))
    ∧ (normalize_price "abc" = none
        ∨ ∃ v, normalize_price "abc" = some v ∧ v.isFin = false) :=
  ⟨normalize_price_parsing.2.2.1 "1.2.3" (by decide) (by decide),
    normalize_price_parsing.2.2.2.2 "abc" (by decide)⟩
